import Mathlib

/-!
# Verification of the ai-library search services

A shallow embedding of `src/services/bookService.ts` and
`src/services/aiService.ts`. JavaScript strings are modelled as `List Char`
(Unicode scalar sequences); `undefined`/missing strings are `Option` or the
empty list where JavaScript truthiness makes them interchangeable; network
requests and the `JSON.parse` builtin are oracle parameters, so every theorem
quantifies over all possible remote behaviours.
-/

set_option maxRecDepth 4096

/-- JavaScript strings, as sequences of Unicode scalar values. -/
abbrev Str := List Char

/-- The character class of the JavaScript regex `\s` (which also contains the
four line terminators), and the set stripped by `String.prototype.trim`. -/
def isWs (c : Char) : Bool :=
  c.toNat = 32 || c.toNat = 9 || c.toNat = 10 || c.toNat = 13 ||
  c.toNat = 11 || c.toNat = 12 || c.toNat = 0xa0 || c.toNat = 0x1680 ||
  (0x2000 ≤ c.toNat && c.toNat ≤ 0x200a) ||
  c.toNat = 0x2028 || c.toNat = 0x2029 ||
  c.toNat = 0x202f || c.toNat = 0x205f || c.toNat = 0x3000 || c.toNat = 0xfeff

/-- JavaScript line terminators: the characters that `.` does not match when
the `s` flag is absent. -/
def isLineTerminator (c : Char) : Bool :=
  c.toNat = 10 || c.toNat = 13 || c.toNat = 0x2028 || c.toNat = 0x2029

/-- `String.prototype.trim`: strip leading and trailing white space. -/
def jsTrim (s : Str) : Str := (s.dropWhile isWs).rdropWhile isWs

/-- `String.prototype.toLowerCase`, pointwise. -/
def toLowerStr (s : Str) : Str := s.map Char.toLower

/-- JavaScript truthiness of a string: the empty string is falsy. -/
def jsTruthy (s : Str) : Bool := !s.isEmpty

/-- JavaScript truthiness of a possibly-`undefined` string. -/
def jsTruthyOpt : Option Str → Bool
  | none => false
  | some s => jsTruthy s

/-- `haystack.includes(needle)` on JavaScript strings. -/
def jsIncludes (haystack needle : Str) : Bool :=
  needle.isPrefixOf haystack ||
    match haystack with
    | [] => false
    | _ :: t => jsIncludes t needle

/-- `haystack.endsWith(needle)` on JavaScript strings. -/
def jsEndsWith (haystack needle : Str) : Bool := needle.isSuffixOf haystack

/-- The backtick character, U+0060. -/
def btick : Char := Char.ofNat 96

/-! ## Data model (`src/types`, as used by the services) -/

/-- The `AIRecommendation` interface of `aiService.ts`. -/
structure AIRecommendation where
  enhancedQuery : Str
  recommendations : List Str
  searchTerms : List Str
deriving DecidableEq

/-- A `Book` record as assembled by `convertAIRecommendationToBook`. -/
structure Book where
  id : Str
  title : Str
  author : List Str
  subjects : List Str
  source : Str
  isAIRecommendation : Bool
  downloadUrl : Option Str
  coverUrl : Str
deriving DecidableEq

/-- The `SearchResult` record returned by `searchBooks`. Fields that the
failure branch omits are `Option`s. -/
structure SearchResult where
  books : List Book
  totalResults : Nat
  query : Str
  enhancedQuery : Option Str
  searchTerms : Option (List Str)
  aiRecommendationsCount : Nat
  pdfFoundCount : Nat
  booksWithoutPDFs : Option Nat
deriving DecidableEq

/-- One item of a Google Programmable Search response; absent fields are
modelled by the empty string, which is interchangeable with `undefined`
under the truthiness and `includes` checks the code performs. -/
structure SearchItem where
  link : Str
  displayLink : Str
  snippet : Str
deriving DecidableEq

/-! ## Recommendation cache (`aiService.ts`, lines 85–106)

The `Map` is modelled as an association list; `Map.get`/`Map.set` become
`mapGet`/`mapSet`. The payload type is a parameter because the running code
stores whatever `JSON.parse` produced. -/

/-- A cache entry: `{ data, timestamp }` with `Date.now()` in milliseconds. -/
structure CacheEntry (α : Type) where
  data : α
  timestamp : Nat
deriving DecidableEq

abbrev Cache (α : Type) := List (Str × CacheEntry α)

/-- `CACHE_DURATION = 5 * 60 * 1000`. -/
def CACHE_DURATION : Nat := 5 * 60 * 1000

/-- `Map.prototype.get`. -/
def mapGet {α} (c : Cache α) (k : Str) : Option (CacheEntry α) :=
  match c with
  | [] => none
  | (k', e) :: rest => if k' = k then some e else mapGet rest k

/-- `Map.prototype.set` (replace an existing key, else add). -/
def mapSet {α} (c : Cache α) (k : Str) (e : CacheEntry α) : Cache α :=
  match c with
  | [] => [(k, e)]
  | (k', e') :: rest => if k' = k then (k, e) :: rest else (k', e') :: mapSet rest k e

/-- Key normalization of `getAIRecommendations`:
`query.toLowerCase().trim()`. -/
def normalizeQuery (q : Str) : Str := jsTrim (toLowerStr q)

/-- The cache read of `getAIRecommendations` (lines 87–94): a hit is returned
only while `now - timestamp < CACHE_DURATION`. -/
def cacheGet {α} (c : Cache α) (now : Nat) (query : Str) : Option α :=
  match mapGet c (normalizeQuery query) with
  | some e => if now - e.timestamp < CACHE_DURATION then some e.data else none
  | none => none

/-- The cache write of `getAIRecommendations` (lines 100–103). -/
def cacheSet {α} (c : Cache α) (now : Nat) (query : Str) (d : α) : Cache α :=
  mapSet c (normalizeQuery query) ⟨d, now⟩

/-! ## PDF locator (`bookService.ts`, `searchGoogleForPDF`, lines 135–196)

Credentials come from the environment (`undefined` and `""` are both falsy,
so both are the empty string here); the HTTP response is an oracle: either a
thrown error or the `data.items` list (a missing or empty `items` both skip
the scan loop, so both are the empty list). -/

/-- The scan loop over `data.items` (lines 168–183): for each item in order,
return its link if it ends in `.pdf` (lower-cased), or else if the link
contains `.pdf` or the display link or snippet contains `pdf`. -/
def findPdfInItems : List SearchItem → Option Str
  | [] => none
  | item :: rest =>
    if jsTruthy item.link && jsEndsWith (toLowerStr item.link) ".pdf".data then
      some item.link
    else if jsTruthy item.link &&
        (jsIncludes (toLowerStr item.link) ".pdf".data ||
         jsIncludes (toLowerStr item.displayLink) "pdf".data ||
         jsIncludes (toLowerStr item.snippet) "pdf".data) then
      some item.link
    else
      findPdfInItems rest

/-- `searchGoogleForPDF`. The `Bool` component records whether the network
request was issued. Any thrown error is caught and yields `none`
(lines 188–195); the title/author arguments only shape the outgoing query,
which is part of the oracle's key at the call site. -/
def searchGoogleForPDF (apiKey cx : Str) (resp : Except Unit (List SearchItem)) :
    Option Str × Bool :=
  if !jsTruthy apiKey || !jsTruthy cx then
    (none, false)
  else
    match resp with
    | .error _ => (none, true)
    | .ok items => (findPdfInItems items, true)

/-! ## Cover-image resolver (`bookService.ts`, `fetchBookCover`, lines 112–130)

The two upstream fetchers (`fetchBookCoverFromOpenLibrary`,
`fetchBookCoverFromGoogleBooks`) catch all of their own errors and return a
URL or `undefined`; they are oracles here. -/

/-- The unreserved characters of `encodeURIComponent`. -/
def isUriUnreserved (c : Char) : Bool :=
  c.isAlphanum || c = '-' || c = '_' || c = '.' || c = '!' || c = '~' ||
    c = '*' || c = Char.ofNat 39 || c = '(' || c = ')'

/-- UTF-8 bytes of a Unicode scalar value. -/
def utf8Bytes (n : Nat) : List Nat :=
  if n < 0x80 then [n]
  else if n < 0x800 then [0xc0 + n / 64, 0x80 + n % 64]
  else if n < 0x10000 then [0xe0 + n / 4096, 0x80 + (n / 64) % 64, 0x80 + n % 64]
  else [0xf0 + n / 262144, 0x80 + (n / 4096) % 64, 0x80 + (n / 64) % 64, 0x80 + n % 64]

/-- An upper-case hexadecimal digit. -/
def hexDigit (n : Nat) : Char :=
  if n < 10 then Char.ofNat (48 + n) else Char.ofNat (55 + n)

/-- `%XX` percent-encoding of one byte. -/
def percentByte (b : Nat) : Str := ['%', hexDigit (b / 16), hexDigit (b % 16)]

/-- `encodeURIComponent`. -/
def encodeURIComponent (s : Str) : Str :=
  (s.map fun c =>
    if isUriUnreserved c then [c]
    else ((utf8Bytes c.toNat).map percentByte).flatten).flatten

/-- The placeholder URL of `fetchBookCover` (lines 124–126):
`title.substring(0, 30)` and `author.substring(0, 20)`, URI-encoded, pasted
into the via.placeholder.com template. -/
def placeholderCoverUrl (title author : Str) : Str :=
  "https://via.placeholder.com/400x600/1e293b/f8fafc?text=".data ++
    encodeURIComponent (title.take 30) ++ "+by+".data ++
    encodeURIComponent (author.take 20)

/-- `fetchBookCover`. `openLib` and `googleBooks` are the results of the two
upstream fetchers for this title/author; the `Bool` component records whether
the Google Books source was queried. -/
def fetchBookCover (openLib googleBooks : Option Str) (title author : Str) :
    Str × Bool :=
  if jsTruthyOpt openLib then
    (openLib.getD [], false)
  else if jsTruthyOpt googleBooks then
    (googleBooks.getD [], true)
  else
    (placeholderCoverUrl title author, true)

/-! ## Title/author parsing (`bookService.ts`, lines 207–210)

`recommendation.match(/^(.*?)\s+by\s+(.*)$/i)`, transcribed as the regex
engine runs it. The lazy group `(.*?)` grows one character at a time — and
only across characters `.` matches, i.e. non-line-terminators — while at
each split point the tail `\s+by\s+(.*)$` is deterministic: each greedy
`\s+` is forced to the maximal white-space run (backtracking it would place
`b` or the final group's start on a white-space character, and `(.*)$` must
cover exactly the rest, which `.` allows only when it has no line
terminator). -/

/-- Try `\s+by\s+(.*)$` at the current position; return the second group
(`\s+` is forced to the maximal run on both sides, and `(.*)$` covers the
rest, which `.` allows only without a line terminator). -/
def trySepHere (s : Str) : Option Str :=
  if (s.takeWhile isWs).isEmpty then none
  else
    match s.dropWhile isWs with
    | b :: y :: rest =>
      if (b = 'b' || b = 'B') && (y = 'y' || y = 'Y') then
        if (rest.takeWhile isWs).isEmpty then none
        else
          if (rest.dropWhile isWs).any isLineTerminator then none
          else some (rest.dropWhile isWs)
      else none
    | _ => none

/-- The full match `/^(.*?)\s+by\s+(.*)$/i`: returns (group 1, group 2). -/
def matchTitleAuthor : Str → Option (Str × Str)
  | [] => (trySepHere []).map fun post => ([], post)
  | c :: s' =>
    match trySepHere (c :: s') with
    | some post => some ([], post)
    | none =>
      if isLineTerminator c then none
      else (matchTitleAuthor s').map fun p => (c :: p.1, p.2)

/-! ## JSON extraction (`aiService.ts`, lines 20–27)

`/```(?:json)?\s*([\s\S]*?)\s*```/` run on the reply, transcribed the same
way: the engine scans for the first viable match start; after the opening
fence the optional `json` tag is taken greedily, `\s*` is forced to the
maximal run, and the lazy group grows until a closing `\s*``` fits (again
with `\s*` forced maximal, since white space is never a backtick). -/

/-- Try `\s*```' at the current position; return the rest after the fence. -/
def checkCloseHere (s : Str) : Option Str :=
  let t := s.dropWhile isWs
  if "```".data.isPrefixOf t then some (t.drop 3) else none

/-- Grow the lazy group until a closing `\s*``` fits; return (group, rest). -/
def tryClose : Str → Option (Str × Str)
  | [] => (checkCloseHere []).map fun rest => ([], rest)
  | c :: s' =>
    match checkCloseHere (c :: s') with
    | some rest => some ([], rest)
    | none => (tryClose s').map fun p => (c :: p.1, p.2)

/-- Try the whole pattern at the current position; return group 1. -/
def tryOpenHere (s : Str) : Option Str :=
  if "```".data.isPrefixOf s then
    let t := s.drop 3
    let t := if "json".data.isPrefixOf t then t.drop 4 else t
    (tryClose (t.dropWhile isWs)).map Prod.fst
  else none

/-- Scan for the first position where the fence pattern matches. -/
def scanFence : Str → Option Str
  | [] => none
  | c :: s' =>
    match tryOpenHere (c :: s') with
    | some g => some g
    | none => scanFence s'

/-- The string handed to `JSON.parse` by `extractJsonFromResponse`:
`(jsonMatch ? jsonMatch[1] : content).trim()`. -/
def extractJsonString (content : Str) : Str :=
  match scanFence content with
  | some g => jsTrim g
  | none => jsTrim content

/-- `extractJsonFromResponse`, with `JSON.parse` as the oracle `parse`; a
parse failure is the thrown `SyntaxError`. -/
def extractJsonFromResponse {α} (parse : Str → Except Unit α) (content : Str) :
    Except Unit α :=
  parse (extractJsonString content)

/-! ## Recommendation client (`aiService.ts`, lines 30–106)

The HTTP POST is an oracle: a thrown error (axios failure or the abort
fired by the timeout) or the optional `choices[0]?.message?.content` text.
The payload type is whatever `JSON.parse` produced (`any` in the source):
no shape validation happens anywhere in the function. -/

/-- A JSON value, the codomain of the `JSON.parse` oracle. -/
inductive Json where
  | jnull : Json
  | jbool : Bool → Json
  | jnum : Int → Json
  | jstr : Str → Json
  | jarr : List Json → Json
  | jobj : List (Str × Json) → Json

/-- Whether a JSON value has the `AIRecommendation` shape the system prompt
asks for: an object with a string `enhancedQuery` and string arrays
`recommendations` and `searchTerms`. -/
def isRecommendationShape (j : Json) : Bool :=
  match j with
  | .jobj fields =>
    (match fields.lookup "enhancedQuery".data with
     | some (.jstr _) => true
     | _ => false) &&
    (match fields.lookup "recommendations".data with
     | some (.jarr xs) => xs.all fun x => match x with | .jstr _ => true | _ => false
     | _ => false) &&
    (match fields.lookup "searchTerms".data with
     | some (.jarr xs) => xs.all fun x => match x with | .jstr _ => true | _ => false
     | _ => false)
  | _ => false

/-- `getRecommendationsFromModel` (lines 30–82): propagate a remote error,
throw on missing or empty content, otherwise hand the content to
`extractJsonFromResponse` and return its result unchecked. -/
def getRecommendationsFromModel {α} (parse : Str → Except Unit α)
    (remote : Except Unit (Option Str)) : Except Unit α :=
  match remote with
  | .error e => .error e
  | .ok none => .error ()
  | .ok (some content) =>
    if jsTruthy content then extractJsonFromResponse parse content
    else .error ()

/-- `getAIRecommendations` (lines 85–106): serve a fresh cache hit, else call
the model, cache a success, and propagate a failure. Returns the result
together with the cache state after the call. -/
def getAIRecommendations {α} (parse : Str → Except Unit α)
    (remote : Except Unit (Option Str)) (c : Cache α) (now : Nat)
    (query : Str) : Except Unit (α × Cache α) :=
  match cacheGet c now query with
  | some d => .ok (d, c)
  | none =>
    match getRecommendationsFromModel parse remote with
    | .error e => .error e
    | .ok result => .ok (result, cacheSet c now query result)

/-! ## Converter and orchestrator (`bookService.ts`, lines 201–275) -/

/-- The environment of one `searchBooks` call: the outcome of
`getAIRecommendations`, the two Google Programmable Search credentials, and
the per-call responses of the three upstream services, keyed by the
arguments the code passes them. -/
structure SearchEnv where
  ai : Except Unit AIRecommendation
  apiKey : Str
  cx : Str
  pdfResp : Str → Str → Except Unit (List SearchItem)
  openLib : Str → Str → Option Str
  googleBooks : Str → Str → Option Str

/-- `convertAIRecommendationToBook` (lines 201–228). -/
def convertAIRecommendationToBook (env : SearchEnv) (recommendation : Str)
    (index : Nat) (originalQuery : Str) : Book :=
  let m := matchTitleAuthor recommendation
  let title := match m with | some p => jsTrim p.1 | none => recommendation
  let authorString :=
    match m with | some p => jsTrim p.2 | none => "Unknown Author".data
  let author := (authorString.splitOn ',').map jsTrim
  let downloadUrl :=
    (searchGoogleForPDF env.apiKey env.cx (env.pdfResp title authorString)).1
  let coverUrl :=
    (fetchBookCover (env.openLib title authorString)
      (env.googleBooks title authorString) title authorString).1
  { id := "ai-rec-".data ++ (toString index).data
    title := title
    author := author
    subjects := ["AI recommended for: ".data ++ originalQuery]
    source := "ai-recommendation".data
    isAIRecommendation := true
    downloadUrl := downloadUrl
    coverUrl := coverUrl }

/-- The `SearchResult` of the catch branch of `searchBooks` (lines 267–273). -/
def emptySearchResult (query : Str) : SearchResult :=
  { books := []
    totalResults := 0
    query := query
    enhancedQuery := none
    searchTerms := none
    aiRecommendationsCount := 0
    pdfFoundCount := 0
    booksWithoutPDFs := none }

/-- `searchBooks` (lines 233–275). Every callee below the recommendation
fetch is total, so the catch branch is reached exactly when
`getAIRecommendations` failed. -/
def searchBooks (env : SearchEnv) (query : Str) : SearchResult :=
  match env.ai with
  | .error _ => emptySearchResult query
  | .ok aiData =>
    let aiBooks := aiData.recommendations.enum.map fun p =>
      convertAIRecommendationToBook env p.2 p.1 query
    let booksWithPDFs := aiBooks.filter fun book => jsTruthyOpt book.downloadUrl
    let booksWithoutPDFs := aiBooks.filter fun book => !jsTruthyOpt book.downloadUrl
    let allBooks := booksWithPDFs ++ booksWithoutPDFs
    { books := allBooks
      totalResults := allBooks.length
      query := query
      enhancedQuery := some aiData.enhancedQuery
      searchTerms := some aiData.searchTerms
      aiRecommendationsCount := aiBooks.length
      pdfFoundCount := booksWithPDFs.length
      booksWithoutPDFs := some booksWithoutPDFs.length }

/-! ## Specification-side notions used in the theorem statements -/

/-- The two characters of a case-insensitive `by`. -/
def IsBy (b y : Char) : Prop := (b = 'b' ∨ b = 'B') ∧ (y = 'y' ∨ y = 'Y')

/-- The spec's `"<title> by <author>"` pattern: `s` splits as `pre`, then a
`by` delimited by white space on both sides, then `post`. -/
def SepAt (s pre post : Str) : Prop :=
  ∃ w1 b y w2, s = pre ++ w1 ++ b :: y :: w2 ++ post ∧
    w1 ≠ [] ∧ (∀ c ∈ w1, isWs c = true) ∧ IsBy b y ∧
    w2 ≠ [] ∧ (∀ c ∈ w2, isWs c = true)

/-- A decidable over-approximation of the spec pattern: somewhere in `s` a
white-space character is immediately followed by a case-insensitive `by`.
Every `SepAt` decomposition exhibits this, so `hasWsBy s = false` refutes
the existence of any separator. -/
def hasWsBy : Str → Bool
  | c :: b :: y :: rest =>
    (isWs c && (b = 'b' || b = 'B') && (y = 'y' || y = 'Y')) ||
      hasWsBy (b :: y :: rest)
  | _ => false

/-- Whether one search item passes either of the two checks the PDF scan
loop applies to it. -/
def pdfQualifies (item : SearchItem) : Bool :=
  jsTruthy item.link &&
    (jsEndsWith (toLowerStr item.link) ".pdf".data ||
     jsIncludes (toLowerStr item.link) ".pdf".data ||
     jsIncludes (toLowerStr item.displayLink) "pdf".data ||
     jsIncludes (toLowerStr item.snippet) "pdf".data)

/-- The list of books `searchBooks` builds from a successful recommendation
payload, one per recommendation string, in recommendation order. -/
def convertedBooks (env : SearchEnv) (query : Str) (aiData : AIRecommendation) :
    List Book :=
  aiData.recommendations.enum.map fun p =>
    convertAIRecommendationToBook env p.2 p.1 query

/-! ## Concrete fixtures for the evaluation theorems -/

/-- An environment whose recommendation fetch fails. -/
def failEnv : SearchEnv :=
  { ai := .error ()
    apiKey := []
    cx := []
    pdfResp := fun _ _ => .error ()
    openLib := fun _ _ => none
    googleBooks := fun _ _ => none }

/-- A fixed recommendation payload: three books, of which the first and the
third will get a PDF from `testEnv`. -/
def testRec : AIRecommendation :=
  { enhancedQuery := "eq".data
    recommendations := ["A by X".data, "B by Y".data, "C by Z".data]
    searchTerms := ["t1".data] }

/-- An environment whose recommendation fetch succeeds with `testRec` and
whose PDF search finds a link for the titles `A` and `C` only. -/
def testEnv : SearchEnv :=
  { ai := .ok testRec
    apiKey := "k".data
    cx := "c".data
    pdfResp := fun title _ =>
      if title = "A".data ∨ title = "C".data then
        .ok [⟨"http://x/a.pdf".data, [], []⟩]
      else .ok []
    openLib := fun _ _ => some "http://cover".data
    googleBooks := fun _ _ => none }

/-! # Theorems -/

/-! ## List and character lemmas -/

theorem dropWhile_append_of_all {α} {p : α → Bool} (ws l : List α)
    (h : ∀ c ∈ ws, p c = true) : (ws ++ l).dropWhile p = l.dropWhile p := by
  induction ws with
  | nil => rfl
  | cons c t ih =>
    rw [List.cons_append, List.dropWhile_cons_of_pos (h c (by simp))]
    exact ih fun c hc => h c (by simp [hc])

theorem dropWhile_append_of_ne_nil {α} {p : α → Bool} (a z : List α)
    (h : a.dropWhile p ≠ []) : (a ++ z).dropWhile p = a.dropWhile p ++ z := by
  induction a with
  | nil => simp at h
  | cons c t ih =>
    by_cases hc : p c = true
    · rw [List.dropWhile_cons_of_pos hc] at h
      rw [List.cons_append, List.dropWhile_cons_of_pos hc,
        List.dropWhile_cons_of_pos hc, ih h]
    · have hc' : ¬p c := by simpa using hc
      rw [List.cons_append, List.dropWhile_cons_of_neg hc',
        List.dropWhile_cons_of_neg hc', List.cons_append]

theorem dropWhile_append_stops {α} {p : α → Bool} (body : List α) (c : α)
    (t : List α) (hc : p c = false) :
    (body ++ c :: t).dropWhile p = body.dropWhile p ++ c :: t := by
  by_cases hb : body.dropWhile p = []
  · have hall : ∀ x ∈ body, p x = true := List.dropWhile_eq_nil_iff.mp hb
    rw [dropWhile_append_of_all body _ hall, hb, List.nil_append,
      List.dropWhile_cons_of_neg (by simp [hc])]
  · exact dropWhile_append_of_ne_nil body _ hb

theorem takeWhile_ws_block {α} {p : α → Bool} (ws : List α) (c : α) (t : List α)
    (hws : ∀ x ∈ ws, p x = true) (hc : p c = false) :
    (ws ++ c :: t).takeWhile p = ws ∧ (ws ++ c :: t).dropWhile p = c :: t := by
  induction ws with
  | nil =>
    constructor
    · rw [List.nil_append, List.takeWhile_cons_of_neg (by simp [hc])]
    · rw [List.nil_append, List.dropWhile_cons_of_neg (by simp [hc])]
  | cons a b ih =>
    obtain ⟨ih1, ih2⟩ := ih fun x hx => hws x (by simp [hx])
    constructor
    · rw [List.cons_append, List.takeWhile_cons_of_pos (hws a (by simp)), ih1]
    · rw [List.cons_append, List.dropWhile_cons_of_pos (hws a (by simp)), ih2]

theorem dropWhile_head_false {α} {p : α → Bool} :
    ∀ (l : List α) (c : α) (t : List α), l.dropWhile p = c :: t → p c = false := by
  intro l
  induction l with
  | nil => intro c t h; simp at h
  | cons a b ih =>
    intro c t h
    by_cases ha : p a = true
    · rw [List.dropWhile_cons_of_pos ha] at h
      exact ih c t h
    · rw [List.dropWhile_cons_of_neg (by simpa using ha)] at h
      injection h with h1 _
      subst h1
      simpa using ha

theorem rdropWhile_append_of_all {α} {p : α → Bool} (l ws : List α)
    (h : ∀ c ∈ ws, p c = true) : (l ++ ws).rdropWhile p = l.rdropWhile p := by
  unfold List.rdropWhile
  rw [List.reverse_append, dropWhile_append_of_all]
  intro c hc
  exact h c (List.mem_reverse.mp hc)

theorem rdropWhile_cons_of_ne_nil {α} {p : α → Bool} (c : α) (l : List α)
    (h : l.rdropWhile p ≠ []) : (c :: l).rdropWhile p = c :: l.rdropWhile p := by
  unfold List.rdropWhile at *
  have h2 : l.reverse.dropWhile p ≠ [] := by
    intro he
    exact h (by rw [he]; rfl)
  rw [show (c :: l).reverse = l.reverse ++ [c] by simp,
    dropWhile_append_of_ne_nil _ _ h2, List.reverse_append]
  rfl

theorem rdropWhile_cons_of_all {α} {p : α → Bool} (c : α) (l : List α)
    (hc : p c = false) (hl : ∀ x ∈ l, p x = true) :
    (c :: l).rdropWhile p = [c] := by
  unfold List.rdropWhile
  rw [show (c :: l).reverse = l.reverse ++ [c] by simp,
    dropWhile_append_of_all _ _ (fun x hx => hl x (List.mem_reverse.mp hx)),
    List.dropWhile_cons_of_neg (by simp [hc])]
  rfl

/-! ## Trim lemmas -/

theorem jsTrim_ws_append (ws l : Str) (h : ∀ c ∈ ws, isWs c = true) :
    jsTrim (ws ++ l) = jsTrim l := by
  unfold jsTrim
  rw [dropWhile_append_of_all ws l h]

theorem jsTrim_append_ws (l ws : Str) (h : ∀ c ∈ ws, isWs c = true) :
    jsTrim (l ++ ws) = jsTrim l := by
  unfold jsTrim
  by_cases hd : l.dropWhile isWs = []
  · have hall : ∀ x ∈ l, isWs x = true := List.dropWhile_eq_nil_iff.mp hd
    rw [dropWhile_append_of_all l ws hall, hd, List.dropWhile_eq_nil_iff.mpr h]
  · rw [dropWhile_append_of_ne_nil l ws hd, rdropWhile_append_of_all _ ws h]

theorem jsTrim_dropWhile (l : Str) : jsTrim (l.dropWhile isWs) = jsTrim l := by
  unfold jsTrim
  rw [List.dropWhile_idempotent]

theorem jsTrim_idem (l : Str) : jsTrim (jsTrim l) = jsTrim l := by
  unfold jsTrim
  have h1 : ((l.dropWhile isWs).rdropWhile isWs).dropWhile isWs
      = (l.dropWhile isWs).rdropWhile isWs := by
    cases hr : (l.dropWhile isWs).rdropWhile isWs with
    | nil => rfl
    | cons c t =>
      obtain ⟨u, hu⟩ := List.rdropWhile_prefix isWs (l.dropWhile isWs)
      rw [hr] at hu
      have hd : l.dropWhile isWs = c :: (t ++ u) := by
        rw [← hu]
        simp
      have hcf := dropWhile_head_false l c (t ++ u) hd
      rw [List.dropWhile_cons_of_neg (by simp [hcf])]
  rw [h1, List.rdropWhile_idempotent]

/-! ## Character-case lemmas -/

theorem toLower_eq_self_of_range {c : Char} (h : c.toNat < 65 ∨ 90 < c.toNat) :
    c.toLower = c := by
  unfold Char.toLower
  rw [if_neg]
  omega

theorem toLower_of_isWs {c : Char} (h : isWs c = true) : c.toLower = c := by
  apply toLower_eq_self_of_range
  simp only [isWs, Bool.or_eq_true, decide_eq_true_eq, Bool.and_eq_true] at h
  omega

theorem toLowerStr_append (a b : Str) :
    toLowerStr (a ++ b) = toLowerStr a ++ toLowerStr b :=
  List.map_append _ a b

theorem toLowerStr_all_ws (ws : Str) (h : ∀ c ∈ ws, isWs c = true) :
    ∀ c ∈ toLowerStr ws, isWs c = true := by
  intro c hc
  obtain ⟨a, ha, rfl⟩ := List.mem_map.mp hc
  rw [toLower_of_isWs (h a ha)]
  exact h a ha

/-! ## Cache lemmas -/

theorem mapGet_mapSet {α} (c : Cache α) (k : Str) (e : CacheEntry α) :
    mapGet (mapSet c k e) k = some e := by
  induction c with
  | nil => simp [mapSet, mapGet]
  | cons he t ih =>
    obtain ⟨k', e'⟩ := he
    by_cases hk : k' = k
    · simp [mapSet, hk, mapGet]
    · simp [mapSet, hk, mapGet, ih]

/-- C8: a `get` right after a `put` with the same key returns the stored
value; a `get` whose entry is older than the five-minute expiry behaves as
absent; and keys that differ only by leading/trailing white space or by
letter case normalize to the same cache slot, so `get` cannot distinguish
them. -/
theorem c8_cache_contract {α} :
    (∀ (c : Cache α) (now : Nat) (q : Str) (d : α),
      cacheGet (cacheSet c now q d) now q = some d) ∧
    (∀ (c : Cache α) (now : Nat) (q : Str) (e : CacheEntry α),
      mapGet c (normalizeQuery q) = some e →
      CACHE_DURATION < now - e.timestamp →
      cacheGet c now q = none) ∧
    (∀ wsa core1 wsb wsc core2 wsd : Str,
      (∀ x ∈ wsa, isWs x = true) → (∀ x ∈ wsb, isWs x = true) →
      (∀ x ∈ wsc, isWs x = true) → (∀ x ∈ wsd, isWs x = true) →
      toLowerStr core1 = toLowerStr core2 →
      normalizeQuery (wsa ++ core1 ++ wsb) = normalizeQuery (wsc ++ core2 ++ wsd) ∧
      ∀ (c : Cache α) (now : Nat),
        cacheGet c now (wsa ++ core1 ++ wsb) = cacheGet c now (wsc ++ core2 ++ wsd)) := by
  refine ⟨?_, ?_, ?_⟩
  · intro c now q d
    unfold cacheGet cacheSet
    rw [mapGet_mapSet]
    simp [CACHE_DURATION]
  · intro c now q e hg hold
    unfold cacheGet
    rw [hg]
    have hn : ¬(now - e.timestamp < CACHE_DURATION) := by
      unfold CACHE_DURATION at *
      omega
    simp [hn]
  · intro wsa core1 wsb wsc core2 wsd ha hb hc hd hcase
    have hnorm : normalizeQuery (wsa ++ core1 ++ wsb) =
        normalizeQuery (wsc ++ core2 ++ wsd) := by
      unfold normalizeQuery
      rw [toLowerStr_append, toLowerStr_append, toLowerStr_append,
        toLowerStr_append,
        jsTrim_append_ws _ _ (toLowerStr_all_ws wsb hb),
        jsTrim_append_ws _ _ (toLowerStr_all_ws wsd hd),
        jsTrim_ws_append _ _ (toLowerStr_all_ws wsa ha),
        jsTrim_ws_append _ _ (toLowerStr_all_ws wsc hc),
        hcase]
    refine ⟨hnorm, fun c now => ?_⟩
    unfold cacheGet
    rw [hnorm]

/-- Evaluation of `c8_cache_contract` at concrete inputs. -/
theorem c8_cache_contract_witness :
    cacheGet (cacheSet ([] : Cache Nat) 1000 "q".data 7) 1000 "q".data = some 7 ∧
    cacheGet ([("harry".data, ⟨(7 : Nat), 0⟩)] : Cache Nat) 400000 "harry".data
      = none ∧
    cacheGet ([("harry".data, ⟨(7 : Nat), 0⟩)] : Cache Nat) 100 " HARRY".data =
      cacheGet ([("harry".data, ⟨(7 : Nat), 0⟩)] : Cache Nat) 100 "Harry ".data := by
  refine ⟨c8_cache_contract.1 [] 1000 "q".data 7, ?_, ?_⟩
  · exact c8_cache_contract.2.1 _ 400000 "harry".data ⟨7, 0⟩ (by decide) (by decide)
  · exact (c8_cache_contract.2.2 " ".data "HARRY".data [] [] "Harry".data " ".data
      (by decide) (by decide) (by decide) (by decide) (by decide)).2 _ 100

/-! ## Orchestrator failure path -/

/-- C2: when the recommendation fetch fails, `searchBooks` returns the empty
result with the original query echoed back and every count zero (the
function is total, so no failure escapes this boundary). -/
theorem c2_search_failure_yields_empty (env : SearchEnv) (query : Str)
    (e : Unit) (h : env.ai = .error e) :
    searchBooks env query =
      { books := [], totalResults := 0, query := query, enhancedQuery := none,
        searchTerms := none, aiRecommendationsCount := 0, pdfFoundCount := 0,
        booksWithoutPDFs := none } := by
  unfold searchBooks
  rw [h]
  rfl

/-- Evaluation of `c2_search_failure_yields_empty` at a concrete input. -/
theorem c2_search_failure_yields_empty_witness :
    searchBooks failEnv "hello".data =
      { books := [], totalResults := 0, query := "hello".data,
        enhancedQuery := none, searchTerms := none, aiRecommendationsCount := 0,
        pdfFoundCount := 0, booksWithoutPDFs := none } :=
  c2_search_failure_yields_empty failEnv "hello".data () rfl

/-! ## PDF locator -/

/-- C5: the PDF locator cannot fail: missing credentials short-circuit to
`none` with no request issued, and a thrown remote error or an empty result
list also produce `none`. -/
theorem c5_pdf_locator_total (apiKey cx : Str)
    (resp : Except Unit (List SearchItem)) :
    ((jsTruthy apiKey = false ∨ jsTruthy cx = false) →
      searchGoogleForPDF apiKey cx resp = (none, false)) ∧
    (∀ e, resp = .error e → (searchGoogleForPDF apiKey cx resp).1 = none) ∧
    (resp = .ok [] → (searchGoogleForPDF apiKey cx resp).1 = none) := by
  refine ⟨?_, ?_, ?_⟩
  · intro h
    have hb : (!jsTruthy apiKey || !jsTruthy cx) = true := by
      rcases h with h | h <;> simp [h]
    simp [searchGoogleForPDF, hb]
  · rintro e rfl
    by_cases hb : (!jsTruthy apiKey || !jsTruthy cx) = true
    · simp [searchGoogleForPDF, hb]
    · simp [searchGoogleForPDF, hb]
  · rintro rfl
    by_cases hb : (!jsTruthy apiKey || !jsTruthy cx) = true
    · simp [searchGoogleForPDF, hb]
    · simp [searchGoogleForPDF, hb, findPdfInItems]

/-- Evaluation of `c5_pdf_locator_total` at concrete inputs. -/
theorem c5_pdf_locator_total_witness :
    searchGoogleForPDF [] "c".data (.ok [⟨"x.pdf".data, [], []⟩]) =
      (none, false) ∧
    (searchGoogleForPDF "k".data "c".data (.error ())).1 = none ∧
    (searchGoogleForPDF "k".data "c".data (.ok [])).1 = none :=
  ⟨(c5_pdf_locator_total [] "c".data _).1 (Or.inl rfl),
   (c5_pdf_locator_total "k".data "c".data _).2.1 () rfl,
   (c5_pdf_locator_total "k".data "c".data _).2.2 rfl⟩

/-! ## Cover resolver -/

/-- C6: the cover resolver returns the Open Library URL untouched when that
source yields one — without consulting Google Books (second component
`false`) — and falls back to the placeholder URL built from the title
truncated to 30 characters and the author truncated to 20 when neither
source yields a URL. -/
theorem c6_cover_fallback_chain (ol gb : Option Str) (title author : Str) :
    (∀ u, ol = some u → jsTruthy u = true →
      fetchBookCover ol gb title author = (u, false)) ∧
    (jsTruthyOpt ol = false → jsTruthyOpt gb = false →
      fetchBookCover ol gb title author =
        (placeholderCoverUrl title author, true)) := by
  constructor
  · rintro u rfl hu
    simp [fetchBookCover, jsTruthyOpt, hu]
  · intro h1 h2
    simp [fetchBookCover, h1, h2]

/-- Evaluation of `c6_cover_fallback_chain` at concrete inputs. -/
theorem c6_cover_fallback_chain_witness :
    fetchBookCover (some "http://c".data) (some "x".data) "t".data "a".data =
      ("http://c".data, false) ∧
    fetchBookCover none none "Dune".data "Frank".data =
      (placeholderCoverUrl "Dune".data "Frank".data, true) :=
  ⟨(c6_cover_fallback_chain (some "http://c".data) (some "x".data)
      "t".data "a".data).1 "http://c".data rfl rfl,
   (c6_cover_fallback_chain none none "Dune".data "Frank".data).2 rfl rfl⟩

/-! ## PDF scan-loop characterization -/

theorem findPdf_skip (item : SearchItem) (rest : List SearchItem)
    (h : pdfQualifies item = false) :
    findPdfInItems (item :: rest) = findPdfInItems rest := by
  cases ht : jsTruthy item.link with
  | false =>
    conv_lhs => rw [findPdfInItems]
    simp [ht]
  | true =>
    simp only [pdfQualifies, ht, Bool.true_and, Bool.or_eq_false_iff] at h
    obtain ⟨⟨⟨he, h1⟩, h2⟩, h3⟩ := h
    conv_lhs => rw [findPdfInItems]
    simp [ht, he, h1, h2, h3]

theorem findPdf_hit (item : SearchItem) (rest : List SearchItem)
    (h : pdfQualifies item = true) :
    findPdfInItems (item :: rest) = some item.link := by
  simp only [pdfQualifies, Bool.and_eq_true, Bool.or_eq_true] at h
  obtain ⟨ht, hor⟩ := h
  conv_lhs => rw [findPdfInItems]
  by_cases he : jsEndsWith (toLowerStr item.link) ".pdf".data = true
  · simp [ht, he]
  · have he' : jsEndsWith (toLowerStr item.link) ".pdf".data = false := by
      simpa using he
    rcases hor with ((h1 | h1) | h1) | h1
    · exact absurd h1 he
    all_goals simp [ht, he', h1]

theorem findPdf_none (items : List SearchItem)
    (h : ∀ i ∈ items, pdfQualifies i = false) : findPdfInItems items = none := by
  induction items with
  | nil => rfl
  | cons a t ih =>
    rw [findPdf_skip a t (h a (by simp))]
    exact ih fun i hi => h i (by simp [hi])

theorem findPdf_first (pre : List SearchItem) (item : SearchItem)
    (rest : List SearchItem) (hpre : ∀ i ∈ pre, pdfQualifies i = false)
    (hit : pdfQualifies item = true) :
    findPdfInItems (pre ++ item :: rest) = some item.link := by
  induction pre with
  | nil => exact findPdf_hit item rest hit
  | cons a t ih =>
    rw [List.cons_append, findPdf_skip a _ (hpre a (by simp))]
    exact ih fun i hi => hpre i (by simp [hi])

/-- C4 as stated is false: the scan loop applies both checks to each item in
turn, so an earlier item whose snippet merely mentions "pdf" wins over a
later item whose URL actually ends in `.pdf`. -/
theorem c4_counterexample :
    searchGoogleForPDF "k".data "c".data
        (.ok [⟨"http://a.com/x".data, [], "pdf here".data⟩,
              ⟨"http://b.com/y.pdf".data, [], []⟩]) =
      (some "http://a.com/x".data, true) ∧
    jsEndsWith (toLowerStr "http://b.com/y.pdf".data) ".pdf".data = true ∧
    jsEndsWith (toLowerStr "http://a.com/x".data) ".pdf".data = false := by
  refine ⟨by decide, by decide, by decide⟩

/-- C4 (amended): the locator scans the items in order and returns the link
of the first item that qualifies — its nonempty link ends in `.pdf`
(lower-cased), or its link contains `.pdf`, or its display link or snippet
contains `pdf` — and returns absent when no item qualifies. -/
theorem c4_pdf_first_qualifying_item (apiKey cx : Str)
    (hk : jsTruthy apiKey = true) (hc : jsTruthy cx = true) :
    (∀ (pre : List SearchItem) (item : SearchItem) (rest : List SearchItem),
      (∀ i ∈ pre, pdfQualifies i = false) → pdfQualifies item = true →
      searchGoogleForPDF apiKey cx (.ok (pre ++ item :: rest)) =
        (some item.link, true)) ∧
    (∀ items : List SearchItem, (∀ i ∈ items, pdfQualifies i = false) →
      searchGoogleForPDF apiKey cx (.ok items) = (none, true)) := by
  constructor
  · intro pre item rest hpre hit
    simp [searchGoogleForPDF, hk, hc, findPdf_first pre item rest hpre hit]
  · intro items hnone
    simp [searchGoogleForPDF, hk, hc, findPdf_none items hnone]

/-- Evaluation of `c4_pdf_first_qualifying_item` at concrete inputs. -/
theorem c4_pdf_first_qualifying_item_witness :
    searchGoogleForPDF "k".data "c".data
        (.ok [⟨[], [], "pdf".data⟩, ⟨"http://b/y.pdf".data, [], []⟩]) =
      (some "http://b/y.pdf".data, true) ∧
    searchGoogleForPDF "k".data "c".data (.ok [⟨"http://z".data, [], []⟩]) =
      (none, true) :=
  ⟨(c4_pdf_first_qualifying_item "k".data "c".data rfl rfl).1
      [⟨[], [], "pdf".data⟩] ⟨"http://b/y.pdf".data, [], []⟩ []
      (by decide) (by decide),
   (c4_pdf_first_qualifying_item "k".data "c".data rfl rfl).2
      [⟨"http://z".data, [], []⟩] (by decide)⟩

/-! ## Orchestrator success path -/

theorem length_filter_pair {α} (l : List α) (f : α → Bool) :
    (l.filter f).length + (l.filter fun a => !f a).length = l.length := by
  induction l with
  | nil => rfl
  | cons a t ih =>
    cases hf : f a <;> simp [List.filter_cons, hf, ← ih] <;> omega

/-- C1: on a successful fetch, the returned book list is the PDF-bearing
converted books (in recommendation order) followed by the PDF-less ones (in
recommendation order); `pdfFoundCount` and `booksWithoutPDFs` are the two
partition sizes, and each partition is an order-preserving sublist of the
converted list. -/
theorem c1_partition_books (env : SearchEnv) (query : Str)
    (aiData : AIRecommendation) (h : env.ai = .ok aiData) :
    (searchBooks env query).books =
      ((convertedBooks env query aiData).filter fun b =>
        jsTruthyOpt b.downloadUrl) ++
      ((convertedBooks env query aiData).filter fun b =>
        !jsTruthyOpt b.downloadUrl) ∧
    (searchBooks env query).pdfFoundCount =
      ((convertedBooks env query aiData).filter fun b =>
        jsTruthyOpt b.downloadUrl).length ∧
    (searchBooks env query).booksWithoutPDFs =
      some ((convertedBooks env query aiData).filter fun b =>
        !jsTruthyOpt b.downloadUrl).length ∧
    ((convertedBooks env query aiData).filter fun b =>
      jsTruthyOpt b.downloadUrl).Sublist (convertedBooks env query aiData) ∧
    ((convertedBooks env query aiData).filter fun b =>
      !jsTruthyOpt b.downloadUrl).Sublist (convertedBooks env query aiData) := by
  unfold searchBooks convertedBooks
  rw [h]
  exact ⟨rfl, rfl, rfl, List.filter_sublist _, List.filter_sublist _⟩

/-- C10: on a successful fetch, `totalResults` equals the length of `books`,
which equals `aiRecommendationsCount`, which equals the number of
recommendation strings; and `pdfFoundCount` plus `booksWithoutPDFs` equals
`totalResults`. -/
theorem c10_count_invariants (env : SearchEnv) (query : Str)
    (aiData : AIRecommendation) (h : env.ai = .ok aiData) :
    (searchBooks env query).totalResults = (searchBooks env query).books.length ∧
    (searchBooks env query).books.length =
      (searchBooks env query).aiRecommendationsCount ∧
    (searchBooks env query).aiRecommendationsCount =
      aiData.recommendations.length ∧
    ∃ w, (searchBooks env query).booksWithoutPDFs = some w ∧
      (searchBooks env query).pdfFoundCount + w =
        (searchBooks env query).totalResults := by
  unfold searchBooks
  rw [h]
  refine ⟨rfl, ?_, by simp, ?_⟩
  · simp only [List.length_append]
    exact length_filter_pair _ _
  · exact ⟨_, rfl, (List.length_append _ _).symm⟩

/-- Evaluation of `c1_partition_books` at a concrete input. -/
theorem c1_partition_books_witness :
    (searchBooks testEnv "q".data).books =
      ((convertedBooks testEnv "q".data testRec).filter fun b =>
        jsTruthyOpt b.downloadUrl) ++
      ((convertedBooks testEnv "q".data testRec).filter fun b =>
        !jsTruthyOpt b.downloadUrl) ∧
    (searchBooks testEnv "q".data).pdfFoundCount =
      ((convertedBooks testEnv "q".data testRec).filter fun b =>
        jsTruthyOpt b.downloadUrl).length ∧
    (searchBooks testEnv "q".data).booksWithoutPDFs =
      some ((convertedBooks testEnv "q".data testRec).filter fun b =>
        !jsTruthyOpt b.downloadUrl).length ∧
    ((convertedBooks testEnv "q".data testRec).filter fun b =>
      jsTruthyOpt b.downloadUrl).Sublist (convertedBooks testEnv "q".data testRec) ∧
    ((convertedBooks testEnv "q".data testRec).filter fun b =>
      !jsTruthyOpt b.downloadUrl).Sublist
        (convertedBooks testEnv "q".data testRec) :=
  c1_partition_books testEnv "q".data testRec rfl

/-- Evaluation of `c10_count_invariants` at a concrete input. -/
theorem c10_count_invariants_witness :
    (searchBooks testEnv "q".data).totalResults =
      (searchBooks testEnv "q".data).books.length ∧
    (searchBooks testEnv "q".data).books.length =
      (searchBooks testEnv "q".data).aiRecommendationsCount ∧
    (searchBooks testEnv "q".data).aiRecommendationsCount =
      testRec.recommendations.length ∧
    ∃ w, (searchBooks testEnv "q".data).booksWithoutPDFs = some w ∧
      (searchBooks testEnv "q".data).pdfFoundCount + w =
        (searchBooks testEnv "q".data).totalResults :=
  c10_count_invariants testEnv "q".data testRec rfl

/-! ## Recommendation client failure modes -/

/-- C9 (amended): the client propagates an `UpstreamError` whenever the
remote call errors or times out, returns no or empty content, or content
whose extracted text fails to parse as JSON; but content that parses as JSON
is returned as-is, with no validation of the Recommendation shape, and on a
cache miss `getAIRecommendations` propagates the failure unchanged. -/
theorem c9_client_failure_modes {α} (parse : Str → Except Unit α) :
    (∀ e, getRecommendationsFromModel parse (.error e) = .error e) ∧
    getRecommendationsFromModel parse (.ok none) = .error () ∧
    getRecommendationsFromModel parse (.ok (some [])) = .error () ∧
    (∀ (content : Str) (e : Unit), content ≠ [] →
      parse (extractJsonString content) = .error e →
      getRecommendationsFromModel parse (.ok (some content)) = .error e) ∧
    (∀ (content : Str) (v : α), content ≠ [] →
      parse (extractJsonString content) = .ok v →
      getRecommendationsFromModel parse (.ok (some content)) = .ok v) ∧
    (∀ (remote : Except Unit (Option Str)) (c : Cache α) (now : Nat)
      (q : Str) (e : Unit),
      cacheGet c now q = none → getRecommendationsFromModel parse remote = .error e →
      getAIRecommendations parse remote c now q = .error e) := by
  refine ⟨fun e => rfl, rfl, rfl, ?_, ?_, ?_⟩
  · intro content e hne hp
    have ht : jsTruthy content = true := by
      cases content with
      | nil => exact absurd rfl hne
      | cons a t => rfl
    simp [getRecommendationsFromModel, ht, extractJsonFromResponse, hp]
  · intro content v hne hp
    have ht : jsTruthy content = true := by
      cases content with
      | nil => exact absurd rfl hne
      | cons a t => rfl
    simp [getRecommendationsFromModel, ht, extractJsonFromResponse, hp]
  · intro remote c now q e hmiss herr
    unfold getAIRecommendations
    rw [hmiss, herr]

/-- Evaluation of `c9_client_failure_modes` at concrete inputs. -/
theorem c9_client_failure_modes_witness :
    getRecommendationsFromModel (fun _ => (.error () : Except Unit Json))
      (.error ()) = .error () ∧
    getRecommendationsFromModel (fun _ => (.error () : Except Unit Json))
      (.ok (some "not json".data)) = .error () ∧
    getAIRecommendations (fun _ => (.error () : Except Unit Json))
      (.ok (some "not json".data)) [] 0 "q".data = .error () := by
  refine ⟨(c9_client_failure_modes _).1 (), ?_, ?_⟩
  · exact (c9_client_failure_modes _).2.2.2.1 "not json".data ()
      (by decide) rfl
  · exact (c9_client_failure_modes (fun _ => (.error () : Except Unit Json))
      ).2.2.2.2.2 (.ok (some "not json".data)) [] 0 "q".data () rfl
      ((c9_client_failure_modes _).2.2.2.1 "not json".data () (by decide) rfl)

/-- C9 as stated is false: content that is valid JSON of the wrong shape is
not rejected — `getRecommendationsFromModel` returns it unvalidated instead
of failing. -/
theorem c9_counterexample :
    getRecommendationsFromModel
        (fun s => if s = "[]".data then .ok (Json.jarr []) else .error ())
        (.ok (some "[]".data)) = .ok (Json.jarr []) ∧
    isRecommendationShape (Json.jarr []) = false := by
  constructor
  · rfl
  · rfl

/-! ## Fenced-block extraction -/

theorem tryClose_cons (c : Char) (s' : Str) :
    tryClose (c :: s') =
      match checkCloseHere (c :: s') with
      | some rest => some ([], rest)
      | none => (tryClose s').map fun p => (c :: p.1, p.2) := rfl

theorem scanFence_cons (c : Char) (s' : Str) :
    scanFence (c :: s') =
      match tryOpenHere (c :: s') with
      | some g => some g
      | none => scanFence s' := rfl

theorem fence_data : "```".data = [btick, btick, btick] := by decide

theorem isWs_btick : isWs btick = false := by decide

theorem checkCloseHere_fence (post : Str) :
    checkCloseHere (btick :: btick :: btick :: post) = some post := by
  unfold checkCloseHere
  rw [List.dropWhile_cons_of_neg (by simp [isWs_btick])]
  rw [if_pos]
  · rfl
  · rw [fence_data]
    simp [List.cons_prefix_cons]

theorem not_fence_at_cons (d : Char) (l : Str) (hd : d ≠ btick) :
    "```".data.isPrefixOf (d :: l) = false := by
  rw [fence_data]
  show (btick == d && List.isPrefixOf [btick, btick] l) = false
  have hbd : (btick == d) = false := beq_eq_false_iff_ne.mpr fun he => hd he.symm
  rw [hbd, Bool.false_and]

theorem checkCloseHere_not_fence (s : Str) (d : Char) (t : Str)
    (hdw : s.dropWhile isWs = d :: t) (hd : d ≠ btick) :
    checkCloseHere s = none := by
  unfold checkCloseHere
  rw [hdw]
  simp [not_fence_at_cons d t hd]

set_option maxHeartbeats 1600000 in
theorem tryClose_fence (b post : Str) (hb : btick ∉ b) :
    tryClose (b ++ btick :: btick :: btick :: post) =
      some (b.rdropWhile isWs, post) := by
  induction b with
  | nil =>
    rw [List.nil_append, tryClose_cons, checkCloseHere_fence]
    rfl
  | cons c b' ih =>
    rw [List.cons_append]
    by_cases hall : ∀ x ∈ c :: b', isWs x = true
    · have hcc : checkCloseHere (c :: (b' ++ btick :: btick :: btick :: post)) =
          some post := by
        unfold checkCloseHere
        rw [show c :: (b' ++ btick :: btick :: btick :: post) =
            (c :: b') ++ (btick :: btick :: btick :: post) by simp,
          dropWhile_append_of_all _ _ hall,
          List.dropWhile_cons_of_neg (by simp [isWs_btick]), if_pos]
        · rfl
        · rw [fence_data]
          simp [List.cons_prefix_cons]
      rw [tryClose_cons, hcc]
      rw [List.rdropWhile_eq_nil_iff.mpr hall]
    · have hne : (c :: b').dropWhile isWs ≠ [] := by
        rw [Ne, List.dropWhile_eq_nil_iff]
        exact hall
      obtain ⟨d, t, hdt⟩ : ∃ d t, (c :: b').dropWhile isWs = d :: t := by
        cases hx : (c :: b').dropWhile isWs with
        | nil => exact absurd hx hne
        | cons d t => exact ⟨d, t, rfl⟩
      have hdmem : d ∈ c :: b' := by
        have hsub := (List.dropWhile_suffix (l := c :: b') isWs).sublist.subset
        exact hsub (by rw [hdt]; simp)
      have hdb : d ≠ btick := fun he => hb (he ▸ hdmem)
      have hcc : checkCloseHere (c :: (b' ++ btick :: btick :: btick :: post)) =
          none := by
        refine checkCloseHere_not_fence _ d (t ++ btick :: btick :: btick :: post)
          ?_ hdb
        rw [show c :: (b' ++ btick :: btick :: btick :: post) =
            (c :: b') ++ (btick :: btick :: btick :: post) by simp,
          dropWhile_append_stops _ _ _ isWs_btick, hdt]
        simp
      rw [tryClose_cons, hcc, ih (fun hm => hb (by simp [hm]))]
      have hrc : (c :: b').rdropWhile isWs = c :: b'.rdropWhile isWs := by
        by_cases hb' : b'.rdropWhile isWs = []
        · have hallb' : ∀ x ∈ b', isWs x = true := List.rdropWhile_eq_nil_iff.mp hb'
          have hcw : isWs c = false := by
            by_contra hcw
            exact hall fun x hx => by
              rcases List.mem_cons.mp hx with rfl | hx
              · simpa using hcw
              · exact hallb' x hx
          rw [rdropWhile_cons_of_all c b' hcw hallb', hb']
        · exact rdropWhile_cons_of_ne_nil c b' hb'
      rw [hrc]
      rfl

theorem json_data : "json".data = ['j', 's', 'o', 'n'] := by decide

theorem json_not_prefix (body post : Str) (hj : ¬ "json".data <+: body) :
    ¬ "json".data <+: (body ++ btick :: btick :: btick :: post) := by
  rw [json_data] at *
  match body with
  | [] =>
    intro h
    have := (List.cons_prefix_cons.mp h).1
    exact absurd this (by decide)
  | [c1] =>
    intro h
    have h2 := (List.cons_prefix_cons.mp (List.cons_prefix_cons.mp h).2).1
    exact absurd h2 (by decide)
  | [c1, c2] =>
    intro h
    have h3 := (List.cons_prefix_cons.mp
      (List.cons_prefix_cons.mp (List.cons_prefix_cons.mp h).2).2).1
    exact absurd h3 (by decide)
  | [c1, c2, c3] =>
    intro h
    have h4 := (List.cons_prefix_cons.mp (List.cons_prefix_cons.mp
      (List.cons_prefix_cons.mp (List.cons_prefix_cons.mp h).2).2).2).1
    exact absurd h4 (by decide)
  | c1 :: c2 :: c3 :: c4 :: rest =>
    intro h
    apply hj
    obtain ⟨e1, h⟩ := List.cons_prefix_cons.mp h
    obtain ⟨e2, h⟩ := List.cons_prefix_cons.mp h
    obtain ⟨e3, h⟩ := List.cons_prefix_cons.mp h
    obtain ⟨e4, h⟩ := List.cons_prefix_cons.mp h
    subst e1; subst e2; subst e3; subst e4
    exact List.cons_prefix_cons.mpr ⟨rfl, List.cons_prefix_cons.mpr ⟨rfl,
      List.cons_prefix_cons.mpr ⟨rfl, List.cons_prefix_cons.mpr
        ⟨rfl, List.nil_prefix⟩⟩⟩⟩

theorem fence_isPrefixOf (l : Str) :
    "```".data.isPrefixOf (btick :: btick :: btick :: l) = true := by
  rw [fence_data]
  simp only [List.isPrefixOf_iff_prefix]
  simp [List.cons_prefix_cons]

theorem json_not_prefix_bool (body post : Str) (hj : ¬ "json".data <+: body) :
    "json".data.isPrefixOf (body ++ btick :: btick :: btick :: post) = false := by
  rw [Bool.eq_false_iff]
  intro h
  exact json_not_prefix body post hj (List.isPrefixOf_iff_prefix.mp h)

theorem tryOpenHere_eq (s : Str) :
    tryOpenHere s =
      if "```".data.isPrefixOf s then
        (tryClose ((if "json".data.isPrefixOf (s.drop 3) then (s.drop 3).drop 4
            else s.drop 3).dropWhile isWs)).map Prod.fst
      else none := rfl

theorem tryClose_after_ws (body post : Str) (hb : btick ∉ body) :
    (tryClose ((body ++ btick :: btick :: btick :: post).dropWhile isWs)).map
        Prod.fst = some (jsTrim body) := by
  rw [dropWhile_append_stops _ _ _ isWs_btick,
    tryClose_fence _ _ fun hm =>
      hb ((List.dropWhile_suffix isWs).sublist.subset hm)]
  rfl

theorem tryOpenHere_fence (body post : Str) (hb : btick ∉ body)
    (hj : ¬ "json".data <+: body) :
    tryOpenHere
        (btick :: btick :: btick :: (body ++ btick :: btick :: btick :: post)) =
      some (jsTrim body) := by
  rw [tryOpenHere_eq, if_pos (fence_isPrefixOf _)]
  simp only [List.drop_succ_cons, List.drop_zero,
    json_not_prefix_bool body post hj, Bool.false_eq_true, if_false]
  exact tryClose_after_ws body post hb

theorem isPrefixOf_append_self (a l : Str) : a.isPrefixOf (a ++ l) = true := by
  simp only [List.isPrefixOf_iff_prefix]
  simp

theorem tryOpenHere_fence_json (body post : Str) (hb : btick ∉ body) :
    tryOpenHere (btick :: btick :: btick ::
        ("json".data ++ (body ++ btick :: btick :: btick :: post))) =
      some (jsTrim body) := by
  rw [tryOpenHere_eq, if_pos (fence_isPrefixOf _)]
  simp only [List.drop_succ_cons, List.drop_zero]
  rw [if_pos (isPrefixOf_append_self _ _)]
  rw [show ("json".data ++ (body ++ btick :: btick :: btick :: post)).drop 4 =
      body ++ btick :: btick :: btick :: post by rw [json_data]; rfl]
  exact tryClose_after_ws body post hb

theorem tryOpenHere_not_btick (c : Char) (l : Str) (hc : c ≠ btick) :
    tryOpenHere (c :: l) = none := by
  simp only [tryOpenHere, not_fence_at_cons c l hc, Bool.false_eq_true,
    if_false]

theorem scanFence_not_btick (raw : Str) (h : btick ∉ raw) :
    scanFence raw = none := by
  induction raw with
  | nil => rfl
  | cons c s' ih =>
    rw [scanFence_cons,
      tryOpenHere_not_btick c s' fun he => h (by simp [he])]
    exact ih fun hm => h (by simp [hm])

theorem scanFence_skip (pre rest : Str) (hp : btick ∉ pre) :
    scanFence (pre ++ rest) = scanFence rest := by
  induction pre with
  | nil => rfl
  | cons c pre' ih =>
    rw [List.cons_append, scanFence_cons,
      tryOpenHere_not_btick c _ fun he => hp (by simp [he])]
    exact ih fun hm => hp (by simp [hm])

theorem extractJsonString_no_btick (raw : Str) (h : btick ∉ raw) :
    extractJsonString raw = jsTrim raw := by
  unfold extractJsonString
  rw [scanFence_not_btick raw h]

theorem extractJsonString_fenced (pre body post : Str) (hpre : btick ∉ pre)
    (hb : btick ∉ body) (hj : ¬ "json".data <+: body) :
    extractJsonString (pre ++ "```".data ++ body ++ "```".data ++ post) =
      jsTrim body := by
  have he : pre ++ "```".data ++ body ++ "```".data ++ post =
      pre ++ btick :: btick :: btick ::
        (body ++ btick :: btick :: btick :: post) := by
    rw [fence_data]
    simp
  rw [he]
  unfold extractJsonString
  rw [scanFence_skip pre _ hpre, scanFence_cons,
    tryOpenHere_fence body post hb hj]
  exact jsTrim_idem body

theorem extractJsonString_fenced_json (pre body post : Str) (hpre : btick ∉ pre)
    (hb : btick ∉ body) :
    extractJsonString (pre ++ "```json".data ++ body ++ "```".data ++ post) =
      jsTrim body := by
  have he : pre ++ "```json".data ++ body ++ "```".data ++ post =
      pre ++ btick :: btick :: btick ::
        ("json".data ++ (body ++ btick :: btick :: btick :: post)) := by
    rw [fence_data, json_data,
      show "```json".data = [btick, btick, btick, 'j', 's', 'o', 'n'] by decide]
    simp
  rw [he]
  unfold extractJsonString
  rw [scanFence_skip pre _ hpre, scanFence_cons,
    tryOpenHere_fence_json body post hb]
  exact jsTrim_idem body

/-- C7: the parser hands `JSON.parse` exactly the content of the first fenced
code block when one is present (the opening fence's optional `json` tag is
not part of the content), and the raw reply text otherwise; in either case
the result — success or the thrown parse error — is whatever `JSON.parse`
returns on that text. -/
theorem c7_fenced_json_extraction {α} (parse : Str → Except Unit α) :
    (∀ pre body post : Str, btick ∉ pre → btick ∉ body →
      ¬ "json".data <+: body →
      extractJsonFromResponse parse
          (pre ++ "```".data ++ body ++ "```".data ++ post) =
        parse (jsTrim body)) ∧
    (∀ pre body post : Str, btick ∉ pre → btick ∉ body →
      extractJsonFromResponse parse
          (pre ++ "```json".data ++ body ++ "```".data ++ post) =
        parse (jsTrim body)) ∧
    (∀ raw : Str, btick ∉ raw →
      extractJsonFromResponse parse raw = parse (jsTrim raw)) := by
  refine ⟨?_, ?_, ?_⟩
  · intro pre body post hpre hb hj
    unfold extractJsonFromResponse
    rw [extractJsonString_fenced pre body post hpre hb hj]
  · intro pre body post hpre hb
    unfold extractJsonFromResponse
    rw [extractJsonString_fenced_json pre body post hpre hb]
  · intro raw h
    unfold extractJsonFromResponse
    rw [extractJsonString_no_btick raw h]

/-- Evaluation of `c7_fenced_json_extraction` at concrete inputs. -/
theorem c7_fenced_json_extraction_witness :
    extractJsonFromResponse (fun s => (Except.ok s : Except Unit Str))
        ("x ".data ++ "```".data ++ "[1]".data ++ "```".data ++ " y".data) =
      .ok (jsTrim "[1]".data) ∧
    extractJsonFromResponse (fun s => (Except.ok s : Except Unit Str))
        ("x ".data ++ "```json".data ++ " [1] ".data ++ "```".data ++
          " y".data) =
      .ok (jsTrim " [1] ".data) ∧
    extractJsonFromResponse (fun s => (Except.ok s : Except Unit Str))
        " raw ".data = .ok (jsTrim " raw ".data) :=
  ⟨(c7_fenced_json_extraction _).1 "x ".data "[1]".data " y".data
      (by decide) (by decide) (by decide),
   (c7_fenced_json_extraction _).2.1 "x ".data " [1] ".data " y".data
      (by decide) (by decide),
   (c7_fenced_json_extraction _).2.2 " raw ".data (by decide)⟩

/-! ## Title/author separator characterization -/

theorem matchTitleAuthor_cons (c : Char) (s' : Str) :
    matchTitleAuthor (c :: s') =
      match trySepHere (c :: s') with
      | some post => some ([], post)
      | none =>
        if isLineTerminator c then none
        else (matchTitleAuthor s').map fun p => (c :: p.1, p.2) := rfl

theorem isWs_by_char {b : Char} (hb : b = 'b' ∨ b = 'B') : isWs b = false := by
  rcases hb with rfl | rfl <;> decide

theorem trySepHere_sound (s p : Str) (h : trySepHere s = some p) :
    SepAt s [] p := by
  unfold trySepHere at h
  by_cases h1 : (s.takeWhile isWs).isEmpty
  · rw [if_pos h1] at h
    simp at h
  · rw [if_neg h1] at h
    cases hd : s.dropWhile isWs with
    | nil =>
      rw [hd] at h
      simp at h
    | cons b t1 =>
      cases t1 with
      | nil =>
        rw [hd] at h
        simp at h
      | cons y rest =>
        rw [hd] at h
        by_cases hby : ((b = 'b' || b = 'B') && (y = 'y' || y = 'Y')) = true
        · rw [show (match b :: y :: rest with
            | b :: y :: rest =>
              if (b = 'b' || b = 'B') && (y = 'y' || y = 'Y') then
                if (rest.takeWhile isWs).isEmpty then none
                else
                  if (rest.dropWhile isWs).any isLineTerminator then none
                  else some (rest.dropWhile isWs)
              else none
            | _ => (none : Option Str)) =
              if (b = 'b' || b = 'B') && (y = 'y' || y = 'Y') then
                if (rest.takeWhile isWs).isEmpty then none
                else
                  if (rest.dropWhile isWs).any isLineTerminator then none
                  else some (rest.dropWhile isWs)
              else none from rfl, if_pos hby] at h
          by_cases h2 : (rest.takeWhile isWs).isEmpty
          · rw [if_pos h2] at h
            simp at h
          · rw [if_neg h2] at h
            by_cases h3 : (rest.dropWhile isWs).any isLineTerminator = true
            · rw [if_pos h3] at h
              simp at h
            · rw [if_neg h3] at h
              injection h with h
              subst h
              simp only [Bool.and_eq_true, Bool.or_eq_true,
                decide_eq_true_eq] at hby
              refine ⟨s.takeWhile isWs, b, y, rest.takeWhile isWs, ?_, ?_,
                ?_, ⟨hby.1, hby.2⟩, ?_, ?_⟩
              · rw [List.nil_append,
                  show s.takeWhile isWs ++
                      (b :: y :: rest.takeWhile isWs) ++
                        rest.dropWhile isWs =
                    s.takeWhile isWs ++
                      (b :: y ::
                        (rest.takeWhile isWs ++ rest.dropWhile isWs)) by
                  simp,
                  List.takeWhile_append_dropWhile, ← hd,
                  List.takeWhile_append_dropWhile]
              · intro he
                rw [he] at h1
                exact h1 rfl
              · intro c hc
                exact List.mem_takeWhile_imp hc
              · intro he
                rw [he] at h2
                exact h2 rfl
              · intro c hc
                exact List.mem_takeWhile_imp hc
        · rw [show (match b :: y :: rest with
            | b :: y :: rest =>
              if (b = 'b' || b = 'B') && (y = 'y' || y = 'Y') then
                if (rest.takeWhile isWs).isEmpty then none
                else
                  if (rest.dropWhile isWs).any isLineTerminator then none
                  else some (rest.dropWhile isWs)
              else none
            | _ => (none : Option Str)) =
              if (b = 'b' || b = 'B') && (y = 'y' || y = 'Y') then
                if (rest.takeWhile isWs).isEmpty then none
                else
                  if (rest.dropWhile isWs).any isLineTerminator then none
                  else some (rest.dropWhile isWs)
              else none from rfl, if_neg hby] at h
          simp at h

theorem trySepHere_complete (s post : Str) (h : SepAt s [] post)
    (hnl : ∀ c ∈ s, isLineTerminator c = false) :
    ∃ p, trySepHere s = some p ∧ jsTrim p = jsTrim post := by
  obtain ⟨w1, b, y, w2, heq, hw1ne, hw1ws, hby, hw2ne, hw2ws⟩ := h
  have heq' : s = w1 ++ b :: (y :: (w2 ++ post)) := by
    rw [heq]
    simp
  have hbws : isWs b = false := isWs_by_char hby.1
  obtain ⟨htake, hdrop⟩ :=
    takeWhile_ws_block w1 b (y :: (w2 ++ post)) hw1ws hbws
  refine ⟨post.dropWhile isWs, ?_, jsTrim_dropWhile post⟩
  unfold trySepHere
  rw [heq', htake, hdrop,
    show w1.isEmpty = false by
      cases w1 with
      | nil => exact absurd rfl hw1ne
      | cons a t => rfl,
    if_neg (by simp)]
  rw [show (match b :: y :: (w2 ++ post) with
      | b :: y :: rest =>
        if (b = 'b' || b = 'B') && (y = 'y' || y = 'Y') then
          if (rest.takeWhile isWs).isEmpty then none
          else
            if (rest.dropWhile isWs).any isLineTerminator then none
            else some (rest.dropWhile isWs)
        else none
      | _ => (none : Option Str)) =
        if (b = 'b' || b = 'B') && (y = 'y' || y = 'Y') then
          if ((w2 ++ post).takeWhile isWs).isEmpty then none
          else
            if ((w2 ++ post).dropWhile isWs).any isLineTerminator then none
            else some ((w2 ++ post).dropWhile isWs)
        else none from rfl]
  rw [if_pos (by
    simp only [Bool.and_eq_true, Bool.or_eq_true, decide_eq_true_eq]
    exact ⟨hby.1, hby.2⟩)]
  have hw2d : (w2 ++ post).dropWhile isWs = post.dropWhile isWs :=
    dropWhile_append_of_all w2 post hw2ws
  have htk : ((w2 ++ post).takeWhile isWs).isEmpty = false := by
    cases w2 with
    | nil => exact absurd rfl hw2ne
    | cons c2 t2 =>
      rw [List.cons_append,
        List.takeWhile_cons_of_pos (hw2ws c2 (by simp))]
      rfl
  rw [htk, if_neg (by simp), hw2d,
    show (post.dropWhile isWs).any isLineTerminator = false by
      rw [Bool.eq_false_iff]
      intro hany
      obtain ⟨x, hx, hlx⟩ := List.any_eq_true.mp hany
      have hxs : x ∈ s := by
        rw [heq']
        have : x ∈ post := (List.dropWhile_suffix isWs).sublist.subset hx
        simp [this]
      rw [hnl x hxs] at hlx
      exact absurd hlx (by simp),
    if_neg (by simp)]

theorem sepAt_cons (c : Char) (s pre post : Str) :
    SepAt (c :: s) (c :: pre) post ↔ SepAt s pre post := by
  constructor
  · rintro ⟨w1, b, y, w2, heq, h1, h2, h3, h4, h5⟩
    refine ⟨w1, b, y, w2, ?_, h1, h2, h3, h4, h5⟩
    have h6 : c :: s = c :: (pre ++ w1 ++ b :: y :: w2 ++ post) := by
      simpa using heq
    exact (List.cons_eq_cons.mp h6).2
  · rintro ⟨w1, b, y, w2, heq, h1, h2, h3, h4, h5⟩
    exact ⟨w1, b, y, w2, by rw [heq]; simp, h1, h2, h3, h4, h5⟩

theorem sepAt_nil_elim (pre post : Str) (h : SepAt [] pre post) : False := by
  obtain ⟨w1, b, y, w2, heq, h1, _, _, _, _⟩ := h
  exact absurd heq (by simp)

theorem matchTitleAuthor_minimal :
    ∀ (s : Str), (∀ c ∈ s, isLineTerminator c = false) →
    ∀ (pre post : Str), SepAt s pre post →
    (∀ pre' post', SepAt s pre' post' → pre.length ≤ pre'.length) →
    ∃ p, matchTitleAuthor s = some (pre, p) ∧ jsTrim p = jsTrim post := by
  intro s
  induction s with
  | nil =>
    intro _ pre post hsep _
    exact absurd hsep (fun h => sepAt_nil_elim pre post h)
  | cons c s' ih =>
    intro hnl pre post hsep hmin
    cases htry : trySepHere (c :: s') with
    | some p0 =>
      have hs0 : SepAt (c :: s') [] p0 := trySepHere_sound _ _ htry
      have hpre0 : pre = [] := by
        have := hmin [] p0 hs0
        exact List.length_eq_zero.mp (Nat.le_zero.mp this)
      subst hpre0
      obtain ⟨p1, hp1, htr⟩ := trySepHere_complete _ _ hsep hnl
      rw [htry] at hp1
      injection hp1 with hp1
      refine ⟨p0, ?_, ?_⟩
      · rw [matchTitleAuthor_cons, htry]
      · rw [hp1]
        exact htr
    | none =>
      have hpne : pre ≠ [] := by
        rintro rfl
        obtain ⟨p1, hp1, _⟩ := trySepHere_complete _ _ hsep hnl
        rw [htry] at hp1
        exact absurd hp1 (by simp)
      obtain ⟨pre'', rfl⟩ : ∃ pre'', pre = c :: pre'' := by
        cases pre with
        | nil => exact absurd rfl hpne
        | cons a t =>
          obtain ⟨w1, b, y, w2, heq, _, _, _, _, _⟩ := hsep
          have h3 : c :: s' = a :: (t ++ w1 ++ b :: y :: w2 ++ post) := by
            simpa using heq
          exact ⟨t, by rw [(List.cons_eq_cons.mp h3).1.symm]⟩
      have hsep' : SepAt s' pre'' post := (sepAt_cons c s' pre'' post).mp hsep
      have hcnl : isLineTerminator c = false := hnl c (by simp)
      have hmin' : ∀ pr po, SepAt s' pr po → pre''.length ≤ pr.length := by
        intro pr po hspo
        have := hmin (c :: pr) po ((sepAt_cons c s' pr po).mpr hspo)
        simpa using this
      obtain ⟨p, hp, htr⟩ :=
        ih (fun x hx => hnl x (by simp [hx])) pre'' post hsep' hmin'
      refine ⟨p, ?_, htr⟩
      rw [matchTitleAuthor_cons, htry]
      simp [hcnl, hp]

theorem matchTitleAuthor_no_sep :
    ∀ (s : Str), (¬ ∃ pre post, SepAt s pre post) →
    matchTitleAuthor s = none := by
  intro s
  induction s with
  | nil => intro _; rfl
  | cons c s' ih =>
    intro h
    cases htry : trySepHere (c :: s') with
    | some p0 => exact absurd ⟨[], p0, trySepHere_sound _ _ htry⟩ h
    | none =>
      rw [matchTitleAuthor_cons, htry]
      by_cases hc : isLineTerminator c = true
      · simp [hc]
      · have hn : matchTitleAuthor s' = none := by
          refine ih ?_
          rintro ⟨pr, po, hs⟩
          exact h ⟨c :: pr, po, (sepAt_cons c s' pr po).mpr hs⟩
        simp [hc, hn]

theorem hasWsBy_cons3 (c b y : Char) (rest : Str) :
    hasWsBy (c :: b :: y :: rest) =
      ((isWs c && (b = 'b' || b = 'B') && (y = 'y' || y = 'Y')) ||
        hasWsBy (b :: y :: rest)) := rfl

theorem hasWsBy_tail (c : Char) (t : Str) (h : hasWsBy t = true) :
    hasWsBy (c :: t) = true := by
  cases t with
  | nil => exact absurd h (by decide)
  | cons t1 t2 =>
    cases t2 with
    | nil =>
      rw [show hasWsBy [t1] = false from rfl] at h
      exact absurd h (by decide)
    | cons t3 t4 =>
      rw [hasWsBy_cons3, h, Bool.or_true]

theorem hasWsBy_pattern (u v : Str) (cw b y : Char) (hws : isWs cw = true)
    (hb : b = 'b' ∨ b = 'B') (hy : y = 'y' ∨ y = 'Y') :
    hasWsBy (u ++ cw :: b :: y :: v) = true := by
  induction u with
  | nil =>
    rw [List.nil_append, hasWsBy_cons3, hws]
    rcases hb with rfl | rfl <;> rcases hy with rfl | rfl <;> rfl
  | cons a u' ih =>
    rw [List.cons_append]
    exact hasWsBy_tail a _ ih

theorem sepAt_hasWsBy (s pre post : Str) (h : SepAt s pre post) :
    hasWsBy s = true := by
  obtain ⟨w1, b, y, w2, heq, hw1ne, hw1ws, hby, _, _⟩ := h
  obtain ⟨w1', cw, rfl⟩ : ∃ w1' cw, w1 = w1' ++ [cw] := by
    rcases List.eq_nil_or_concat w1 with hnil | ⟨L, x, hLx⟩
    · exact absurd hnil hw1ne
    · exact ⟨L, x, by simpa using hLx⟩
  have hws : isWs cw = true := hw1ws cw (by simp)
  have heq2 : s = (pre ++ w1') ++ cw :: b :: y :: (w2 ++ post) := by
    rw [heq]
    simp
  rw [heq2]
  exact hasWsBy_pattern _ _ cw b y hws hby.1 hby.2

theorem sepAt_ws_at (s pre post : Str) (h : SepAt s pre post) :
    ∃ cw t, s.drop pre.length = cw :: t ∧ isWs cw = true := by
  obtain ⟨w1, b, y, w2, heq, hw1ne, hw1ws, _, _, _⟩ := h
  obtain ⟨cw, w1t, rfl⟩ : ∃ cw w1t, w1 = cw :: w1t := by
    cases w1 with
    | nil => exact absurd rfl hw1ne
    | cons a t => exact ⟨a, t, rfl⟩
  refine ⟨cw, w1t ++ b :: y :: (w2 ++ post), ?_, hw1ws cw (by simp)⟩
  rw [heq, show pre ++ (cw :: w1t) ++ b :: y :: w2 ++ post =
      pre ++ (cw :: (w1t ++ b :: y :: (w2 ++ post))) by simp]
  exact List.drop_left pre _

/-- C3 (amended): for every recommendation string free of line-terminator
characters, the converter parses the case-insensitive `by` pattern: when a
white-space-delimited `by` separator exists, the text before the first such
separator (trimmed) becomes the title and the text after it — trimmed, split
on commas, each part trimmed — becomes the author list; when no separator
exists the whole string is the title and the author list is the sentinel
`["Unknown Author"]` (the no-separator branch needs no line-terminator
restriction). -/
theorem c3_title_author_parsing :
    (∀ (s pre post : Str), (∀ c ∈ s, isLineTerminator c = false) →
      SepAt s pre post →
      (∀ pre' post', SepAt s pre' post' → pre.length ≤ pre'.length) →
      ∀ (env : SearchEnv) (idx : Nat) (q : Str),
        (convertAIRecommendationToBook env s idx q).title = jsTrim pre ∧
        (convertAIRecommendationToBook env s idx q).author =
          ((jsTrim post).splitOn ',').map jsTrim) ∧
    (∀ (s : Str), (¬ ∃ pre post, SepAt s pre post) →
      ∀ (env : SearchEnv) (idx : Nat) (q : Str),
        (convertAIRecommendationToBook env s idx q).title = s ∧
        (convertAIRecommendationToBook env s idx q).author =
          ["Unknown Author".data]) := by
  constructor
  · intro s pre post hnl hsep hmin env idx q
    obtain ⟨p, hm, htr⟩ := matchTitleAuthor_minimal s hnl pre post hsep hmin
    constructor
    · simp [convertAIRecommendationToBook, hm]
    · simp [convertAIRecommendationToBook, hm, htr]
  · intro s hno env idx q
    have hm := matchTitleAuthor_no_sep s hno
    constructor
    · simp [convertAIRecommendationToBook, hm]
    · simp only [convertAIRecommendationToBook, hm]
      decide

/-- C3 as stated is false on strings with a line terminator: `"a\nb by c"`
contains a white-space-delimited `by` separator (title `"a\nb"`, author
`"c"` under the claimed reading), but the regex's `.` cannot cross the
newline, so the converter falls into the no-match branch and yields the
whole string as title with the sentinel author. -/
theorem c3_counterexample :
    SepAt "a\nb by c".data "a\nb".data "c".data ∧
    (convertAIRecommendationToBook failEnv "a\nb by c".data 0 []).title =
      "a\nb by c".data ∧
    (convertAIRecommendationToBook failEnv "a\nb by c".data 0 []).author =
      ["Unknown Author".data] := by
  refine ⟨⟨" ".data, 'b', 'y', " ".data, by decide, by decide, by decide,
    ⟨Or.inl rfl, Or.inl rfl⟩, by decide, by decide⟩, by decide, by decide⟩

/-- Evaluation of `c3_title_author_parsing` at concrete inputs. -/
theorem c3_title_author_parsing_witness :
    ((convertAIRecommendationToBook failEnv
        "Dune by Frank Herbert, X Y".data 0 []).title =
      jsTrim "Dune".data ∧
     (convertAIRecommendationToBook failEnv
        "Dune by Frank Herbert, X Y".data 0 []).author =
      ((jsTrim "Frank Herbert, X Y".data).splitOn ',').map jsTrim) ∧
    ((convertAIRecommendationToBook failEnv "Some Book".data 0 []).title =
      "Some Book".data ∧
     (convertAIRecommendationToBook failEnv "Some Book".data 0 []).author =
      ["Unknown Author".data]) := by
  constructor
  · refine c3_title_author_parsing.1 "Dune by Frank Herbert, X Y".data
      "Dune".data "Frank Herbert, X Y".data (by decide)
      ⟨" ".data, 'b', 'y', " ".data, by decide, by decide, by decide,
        ⟨Or.inl rfl, Or.inl rfl⟩, by decide, by decide⟩ ?_ failEnv 0 []
    intro pre' post' hs
    obtain ⟨cw, t, hdt, hws⟩ := sepAt_ws_at _ _ _ hs
    by_contra hlt
    push_neg at hlt
    have h4 : pre'.length = 0 ∨ pre'.length = 1 ∨ pre'.length = 2 ∨
        pre'.length = 3 := by
      have h5 : pre'.length < 4 := by simpa using hlt
      omega
    have hh := congrArg List.head? hdt
    rcases h4 with h4 | h4 | h4 | h4 <;> rw [h4] at hh
    · rw [show ("Dune by Frank Herbert, X Y".data.drop 0).head? = some 'D'
        from rfl] at hh
      injection hh with hh
      rw [← hh] at hws
      exact absurd hws (by decide)
    · rw [show ("Dune by Frank Herbert, X Y".data.drop 1).head? = some 'u'
        from rfl] at hh
      injection hh with hh
      rw [← hh] at hws
      exact absurd hws (by decide)
    · rw [show ("Dune by Frank Herbert, X Y".data.drop 2).head? = some 'n'
        from rfl] at hh
      injection hh with hh
      rw [← hh] at hws
      exact absurd hws (by decide)
    · rw [show ("Dune by Frank Herbert, X Y".data.drop 3).head? = some 'e'
        from rfl] at hh
      injection hh with hh
      rw [← hh] at hws
      exact absurd hws (by decide)
  · refine c3_title_author_parsing.2 "Some Book".data ?_ failEnv 0 []
    rintro ⟨pre, post, hs⟩
    have := sepAt_hasWsBy _ _ _ hs
    rw [show hasWsBy "Some Book".data = false by decide] at this
    exact absurd this (by decide)
